import Mathlib

/-!
Shallow embedding of the `Grid` widget from `src/native/grid.rs` of the
`iced_aw` repository, together with proofs of the specified layout,
event-forwarding, hashing and safety properties.

Modelling decisions:
* `f32` values are embedded as exact rationals (`ℚ`).  The one place where
  IEEE special values matter — `(max_width / column_width).floor() as usize`
  with `column_width == 0` — is modelled explicitly by `floorDivToUsize`
  (division by zero yields `+inf`, and a float-to-`usize` `as` cast in Rust
  saturates, so the result is `usize::MAX` for a positive numerator and `0`
  for a zero or negative one).
* `Vec<T>` is `List T`; `Vec::insert`, which panics when `index > len`,
  is modelled by an `Option`-returning step, so the `Columns` arm of
  `layout` is `Option`-valued (`none` = panic).  Claim C10 shows the panic
  is unreachable.
* Child elements are opaque: for layout purposes an element is just its
  measuring function `Limits → Size`; for event handling a child is its
  handler producing a `Status`; for hashing a child is the token list its
  own `hash_layout` feeds to the hasher.
-/

namespace IcedAW

/-- The size returned by a child's layout pass (`iced_native` `Size<f32>`,
modelled with exact rationals). -/
structure Size where
  width : ℚ
  height : ℚ
deriving DecidableEq, Repr

/-- A layout node (`iced_native::layout::Node`): a size, an absolute
position (set by `move_to`, `(0,0)` initially) and a list of children. -/
structure Node where
  size : Size
  x : ℚ
  y : ℚ
  children : List Node

instance : Inhabited Node := ⟨⟨⟨0, 0⟩, 0, 0, []⟩⟩

/-- `Node::new(size)`. -/
def Node.new (s : Size) : Node := ⟨s, 0, 0, []⟩

/-- `Node::with_children(size, children)`. -/
def Node.withChildren (s : Size) (cs : List Node) : Node := ⟨s, 0, 0, cs⟩

/-- Modelled from the spec: the host toolkit's `Limits` sizing-constraint
object (external collaborator, §6 of the spec): it "supports deriving a
fixed-width variant and reading a maximum width". -/
structure Limits where
  minWidth : ℚ
  maxWidth : ℚ
  minHeight : ℚ
  maxHeight : ℚ

/-- Modelled from the spec: `limits.width(Length::Units(w))` — the
fixed-width variant of the limits: width pinned to exactly `w`, heights
untouched. -/
def Limits.withWidth (l : Limits) (w : ℚ) : Limits :=
  { l with minWidth := w, maxWidth := w }

/-- The distribution `Strategy` of the `Grid` (`Columns(usize)` /
`ColumnWidth(u16)`). -/
inductive Strategy where
  | Columns : Nat → Strategy
  | ColumnWidth : Nat → Strategy

/-- The `Grid` widget: a strategy plus the ordered child elements, each
represented by its measuring function. -/
structure Grid where
  strategy : Strategy
  elements : List (Limits → Size)

/-- `Grid::with_columns(columns)`. -/
def with_columns (columns : Nat) : Grid :=
  { strategy := Strategy.Columns columns, elements := [] }

/-- `Grid::with_column_width(column_width)`. -/
def with_column_width (column_width : Nat) : Grid :=
  { strategy := Strategy.ColumnWidth column_width, elements := [] }

/-- `Grid::push(element)` (consuming builder append). -/
def Grid.push (g : Grid) (e : Limits → Size) : Grid :=
  { g with elements := g.elements ++ [e] }

/-- `Grid::insert(element)` (in-place append; same effect as `push`). -/
def Grid.insertElem (g : Grid) (e : Limits → Size) : Grid :=
  { g with elements := g.elements ++ [e] }

/-- `usize::MAX` on a 64-bit target. -/
def USIZE_MAX : Nat := 2 ^ 64 - 1

/-- `(a / b).floor() as usize` under Rust `f32` semantics with exact
rational inputs: division by zero gives `±inf`/NaN and the saturating
float-to-int cast turns those into `usize::MAX` / `0`; ordinary results
are floored and clamped into `[0, usize::MAX]`. -/
def floorDivToUsize (a b : ℚ) : Nat :=
  if b = 0 then
    if 0 < a then USIZE_MAX else 0
  else
    min (Int.toNat ⌊a / b⌋) USIZE_MAX

/-- One iteration of the column-width accumulation in the `Columns` arm of
`layout`: `column_widths.get_mut(column)` succeeds and is replaced by the
max, or `column_widths.insert(column, width)` is attempted
(`Vec::insert` panics — `none` — when `column > len`). -/
def colWidthStep (cw : List ℚ) (column : Nat) (w : ℚ) : Option (List ℚ) :=
  match cw.get? column with
  | some cur => some (cw.set column (max cur w))
  | none =>
    if column ≤ cw.length then some (cw.insertIdx column w) else none

/-- The `for (column, element) in (0..columns).cycle().zip(&self.elements)`
loop of the `Columns` arm, restricted to its effect on `column_widths`;
`i` is the number of elements already consumed (so the column is
`i % n`). -/
def colWidthsAux (n : Nat) : List ℚ → Nat → List Size → Option (List ℚ)
  | cw, _, [] => some cw
  | cw, i, s :: rest => do
    let cw' ← colWidthStep cw (i % n) s.width
    colWidthsAux n cw' (i + 1) rest

/-- The complete `column_widths` table computed by the `Columns` arm for
the given measured sizes (`none` = the `Vec::insert` panic). -/
def computeColumnWidths (n : Nat) (sizes : List Size) : Option (List ℚ) :=
  colWidthsAux n [] 0 sizes

/-- The body of the `for ((column, column_align), size) in
(0..columns).zip(column_aligns).cycle().zip(layouts)` loop of `build_grid`.
`pairs` is the (finite) `(0..columns).zip(column_aligns)` list, `i` the
number of elements already consumed (the cycle supplies entry
`i % pairs.length`).  Returns the produced nodes together with the final
`grid_height` and `row_height` accumulators. -/
def buildGridLoop (pairs : List (Nat × ℚ)) : Nat → List Size → ℚ → ℚ →
    List Node × ℚ × ℚ
  | _, [], gridHeight, rowHeight => ([], gridHeight, rowHeight)
  | i, s :: rest, gridHeight, rowHeight =>
    let pj := pairs.getD (i % pairs.length) (0, 0)
    let gh := if pj.1 = 0 then gridHeight + rowHeight else gridHeight
    let rh := if pj.1 = 0 then (0 : ℚ) else rowHeight
    let res := buildGridLoop pairs (i + 1) rest gh (max rh s.height)
    (⟨s, pj.2, gh, []⟩ :: res.1, res.2.1, res.2.2)

/-- `build_grid(columns, column_aligns, layouts, grid_width)`.  The Rust
`column_aligns` iterator is passed here as the finite list of the states it
yields (for the `ColumnWidth` strategy the infinite `successors` iterator
is cut at `columns` entries, the most the `zip` with `0..columns` can
consume).  An empty `zip` makes `.cycle()` empty, so the loop body never
runs. -/
def buildGrid (columns : Nat) (column_aligns : List ℚ) (layouts : List Size)
    (grid_width : ℚ) : Node :=
  let pairs := (List.range columns).zip column_aligns
  let res := if pairs.isEmpty then (([] : List Node), (0 : ℚ), (0 : ℚ))
             else buildGridLoop pairs 0 layouts 0 0
  Node.withChildren ⟨grid_width, res.2.1 + res.2.2⟩ res.1

/-- `Widget::layout` for `Grid` (`none` models the only possible panic,
the `Vec::insert` in the `Columns` arm — shown unreachable in C10). -/
def layout (g : Grid) (limits : Limits) : Option Node :=
  if g.elements.isEmpty then some (Node.new ⟨0, 0⟩)
  else
    match g.strategy with
    | Strategy.Columns columns =>
      if columns = 0 then some (Node.new ⟨0, 0⟩)
      else
        let layouts := g.elements.map fun e => e limits
        match computeColumnWidths columns layouts with
        | none => none
        | some column_widths =>
          let column_aligns := List.scanl (· + ·) 0 column_widths
          let grid_width := column_widths.sum
          some (buildGrid columns column_aligns layouts grid_width)
    | Strategy.ColumnWidth column_width =>
      let column_limits := limits.withWidth (column_width : ℚ)
      let max_width := limits.maxWidth
      let columns := floorDivToUsize max_width (column_width : ℚ)
      let layouts := g.elements.map fun e => e column_limits
      let column_aligns :=
        (List.range columns).map fun i : Nat => (i : ℚ) * (column_width : ℚ)
      let grid_width := (columns : ℚ) * (column_width : ℚ)
      some (buildGrid columns column_aligns layouts grid_width)

/-- Modelled from the spec: the host toolkit's `event::Status` (external
collaborator): the binary capture-status domain. -/
inductive Status where
  | Ignored : Status
  | Captured : Status
deriving DecidableEq, Repr

/-- Modelled from the spec: `event::Status::merge` — "captured if any
child reports captured, else ignored". -/
def Status.merge : Status → Status → Status
  | Status.Ignored, other => other
  | Status.Captured, _ => Status.Captured

/-- The `children_status` vector collected by `Widget::on_event`: each
element, paired in lockstep with its layout child, handles the event once.
A child is represented by its handler `α` applied to its layout node via
`handle`. -/
def childStatuses (elements : List α) (children : List Node)
    (handle : α → Node → Status) : List Status :=
  (elements.zip children).map fun p => handle p.1 p.2

/-- `Widget::on_event` for `Grid`: fold of `Status::merge` over the
collected child statuses, starting from `Ignored`. -/
def on_event (elements : List α) (children : List Node)
    (handle : α → Node → Status) : Status :=
  (childStatuses elements children handle).foldl Status.merge Status.Ignored

/-- A token fed to the identity `Hasher`: the grid's private `Marker` type
id, or an opaque token contributed by a child's own `hash_layout`. -/
inductive HashTok where
  | marker : HashTok
  | tok : Nat → HashTok
deriving DecidableEq, Repr

/-- `Widget::hash_layout` for `Grid`: hash the fixed `Marker` type id into
the running state, then let every child hash itself, in order.  A child is
represented by the token list it appends (`childHashes`). -/
def hash_layout (childHashes : List (List HashTok)) (state : List HashTok) :
    List HashTok :=
  childHashes.foldl (fun st h => st ++ h) (state ++ [HashTok.marker])

/-! Specification-side descriptions used in the theorem statements.  They
restate the spec's column/row formulas (`element i` sits in column
`i % n` and row `i / n`; a column's width is the max width assigned to it;
a row's height is the max height in it; offsets are prefix sums). -/

/-- The widths of the elements assigned to column `c` under a cycle of
length `n`, in element order. -/
def colWidthList (n : Nat) (sizes : List Size) (c : Nat) : List ℚ :=
  (sizes.enum.filter fun p => p.1 % n == c).map fun p => p.2.width

/-- Width of column `c`: the maximum width among the elements assigned to
it (`0` if the column is untouched). -/
def specColWidth (n : Nat) (sizes : List Size) (c : Nat) : ℚ :=
  (colWidthList n sizes c).foldl max 0

/-- Horizontal offset of column `c`: the sum of the widths of the columns
before it. -/
def specColOffset (n : Nat) (sizes : List Size) (c : Nat) : ℚ :=
  ((List.range c).map (specColWidth n sizes)).sum

/-- Height of row `r` (the elements with indices in `[n*r, n*r + n)`):
the maximum height in the row (`0` if the row is empty). -/
def specRowHeight (n : Nat) (sizes : List Size) (r : Nat) : ℚ :=
  (((sizes.drop (n * r)).take n).map Size.height).foldl max 0

/-- Vertical offset of row `r`: the sum of the heights of the rows before
it. -/
def specRowOffset (n : Nat) (sizes : List Size) (r : Nat) : ℚ :=
  ((List.range r).map (specRowHeight n sizes)).sum

/-- The list of row heights produced by chunking `sizes` into rows of `L`
elements (matching the `build_grid` accumulation). -/
def rowHeights (L : Nat) : List Size → List ℚ
  | [] => []
  | s :: rest =>
    (((s :: rest).take L).map Size.height).foldl max 0 ::
      rowHeights L (rest.drop (L - 1))
termination_by l => l.length
decreasing_by
  simp only [List.length_cons, List.length_drop]
  omega

/-- The full layout the spec prescribes for `Columns n` applied to the
measured `sizes`: grid width is the sum of the touched columns' widths,
grid height the sum of the `⌈k/n⌉` row heights, and child `i` keeps its
measured size at position `(colOffset (i % n), rowOffset (i / n))`. -/
def specColumnsNode (n : Nat) (sizes : List Size) : Node :=
  Node.withChildren
    ⟨((List.range (min sizes.length n)).map (specColWidth n sizes)).sum,
      ((List.range ((sizes.length + n - 1) / n)).map
        (specRowHeight n sizes)).sum⟩
    (sizes.enum.map fun p =>
      { size := p.2, x := specColOffset n sizes (p.1 % n),
        y := specRowOffset n sizes (p.1 / n), children := [] })

/-- The full layout the spec prescribes for `ColumnWidth` once the column
count `cols` is computed: grid width `cols * w`, offsets exact multiples
of `w`, rows as in the general algorithm. -/
def specCWNode (cols : Nat) (w : ℚ) (sizes : List Size) : Node :=
  Node.withChildren
    ⟨(cols : ℚ) * w,
      ((List.range ((sizes.length + cols - 1) / cols)).map
        (specRowHeight cols sizes)).sum⟩
    (sizes.enum.map fun p =>
      { size := p.2, x := ((p.1 % cols : Nat) : ℚ) * w,
        y := specRowOffset cols sizes (p.1 / cols), children := [] })

/-- A constant-size child element, used as a concrete test fixture. -/
def elemOf (w h : ℚ) : Limits → Size := fun _ => ⟨w, h⟩

/-- A concrete host limits value used as a test fixture. -/
def limA : Limits := ⟨0, 100, 0, 100⟩

/-- The four-element fixture from the spec's worked example: `Columns 2`
with natural sizes `(10,5), (20,5), (5,8), (5,8)`. -/
def esA : List (Limits → Size) :=
  [elemOf 10 5, elemOf 20 5, elemOf 5 8, elemOf 5 8]

/-- A two-element fixture. -/
def esB : List (Limits → Size) := [elemOf 3 4, elemOf 6 2]

/-- A one-element fixture. -/
def esC : List (Limits → Size) := [elemOf 5 7]

/-- A limits fixture whose max width (25) fits two 10-wide columns. -/
def limB : Limits := ⟨0, 25, 0, 50⟩

/-- A limits fixture whose max width (5) is smaller than a 10-wide column. -/
def limC : Limits := ⟨0, 5, 0, 50⟩

/-! ### List helper lemmas -/

theorem get?_eq_some_getD (l : List α) (d : α) (i : Nat) (h : i < l.length) :
    l.get? i = some (l.getD i d) := by
  rw [List.getD_eq_get?]
  cases h' : l.get? i with
  | none => exact absurd (List.get?_eq_none.mp h') (Nat.not_le.mpr h)
  | some a => rfl

theorem zip_get?_eq : ∀ (l₁ : List α) (l₂ : List β) (i : Nat),
    (l₁.zip l₂).get? i =
      (l₁.get? i).bind fun a => (l₂.get? i).map fun b => (a, b) := by
  intro l₁
  induction l₁ with
  | nil => intro l₂ i; simp [List.zip]
  | cons a l₁ ih =>
    intro l₂ i
    cases l₂ with
    | nil => simp [List.zip]
    | cons b l₂ =>
      cases i with
      | zero => simp [List.zip_cons_cons]
      | succ i => simpa [List.zip_cons_cons] using ih l₂ i

theorem zip_range_get? (n : Nat) (l : List α) (j : Nat) (hj : j < n)
    (hl : j < l.length) (d : α) :
    ((List.range n).zip l).get? j = some (j, l.getD j d) := by
  rw [zip_get?_eq, List.get?_range hj, get?_eq_some_getD l d j hl]
  rfl

theorem scanl_add_get? : ∀ (cw : List ℚ) (a : ℚ) (j : Nat), j ≤ cw.length →
    (List.scanl (· + ·) a cw).get? j = some (a + (cw.take j).sum) := by
  intro cw
  induction cw with
  | nil =>
    intro a j hj
    have : j = 0 := Nat.le_zero.mp (by simpa using hj)
    subst this
    simp [List.scanl]
  | cons w ws ih =>
    intro a j hj
    cases j with
    | zero => simp [List.scanl]
    | succ j =>
      rw [List.scanl]
      have := ih (a + w) j (by simpa using hj)
      simpa [add_assoc] using this

theorem mem_enum_fst_lt (l : List α) (p : Nat × α) (hp : p ∈ l.enum) :
    p.1 < l.length := by
  rw [List.enum_eq_zip_range] at hp
  have := List.of_mem_zip hp
  simpa using this.1

/-! ### Characterizing the column-width table of the `Columns` arm -/

theorem colWidthList_append (n : Nat) (sizes : List Size) (s : Size) (c : Nat) :
    colWidthList n (sizes ++ [s]) c =
      colWidthList n sizes c ++
        (if sizes.length % n == c then [s.width] else []) := by
  unfold colWidthList
  rw [List.enum_append, List.filter_append, List.map_append]
  congr 1
  by_cases h : sizes.length % n == c <;> simp [List.enumFrom, h]

theorem colWidthList_empty_of_ge (n : Nat) (sizes : List Size) (c : Nat)
    (hc : sizes.length ≤ c) : colWidthList n sizes c = [] := by
  unfold colWidthList
  rw [List.map_eq_nil, List.filter_eq_nil]
  intro p hp
  have h1 : p.1 < sizes.length := mem_enum_fst_lt sizes p hp
  have h2 : p.1 % n ≤ p.1 := Nat.mod_le _ _
  simpa using Nat.ne_of_lt (lt_of_le_of_lt h2 (lt_of_lt_of_le h1 hc))

theorem specColWidth_append_ne (n : Nat) (sizes : List Size) (s : Size)
    (c : Nat) (hc : sizes.length % n ≠ c) :
    specColWidth n (sizes ++ [s]) c = specColWidth n sizes c := by
  unfold specColWidth
  rw [colWidthList_append]
  simp [hc]

theorem specColWidth_append_eq (n : Nat) (sizes : List Size) (s : Size)
    (c : Nat) (hc : sizes.length % n = c) :
    specColWidth n (sizes ++ [s]) c = max (specColWidth n sizes c) s.width := by
  unfold specColWidth
  rw [colWidthList_append]
  simp [hc, List.foldl_concat]

theorem specColWidth_new (n : Nat) (sizes : List Size) (s : Size)
    (hn : sizes.length < n) (hw : 0 ≤ s.width) :
    specColWidth n (sizes ++ [s]) sizes.length = s.width := by
  unfold specColWidth
  rw [colWidthList_append]
  simp only [Nat.mod_eq_of_lt hn, beq_self_eq_true, if_pos]
  rw [colWidthList_empty_of_ge n sizes sizes.length le_rfl]
  simpa using hw

theorem colWidthStep_none (cw : List ℚ) (c : Nat) (w : ℚ)
    (h : cw.get? c = none) :
    colWidthStep cw c w =
      if c ≤ cw.length then some (cw.insertIdx c w) else none := by
  unfold colWidthStep
  rw [h]

theorem colWidthStep_some (cw : List ℚ) (c : Nat) (w cur : ℚ)
    (h : cw.get? c = some cur) :
    colWidthStep cw c w = some (cw.set c (max cur w)) := by
  unfold colWidthStep
  rw [h]

theorem colWidthStep_spec (n : Nat) (p : List Size) (s : Size) (hn : 0 < n)
    (hw : 0 ≤ s.width) :
    colWidthStep ((List.range (min p.length n)).map (specColWidth n p))
        (p.length % n) s.width
      = some ((List.range (min (p.length + 1) n)).map
          (specColWidth n (p ++ [s]))) := by
  set f := specColWidth n p with hf
  set cw := (List.range (min p.length n)).map f with hcw
  have hlen : cw.length = min p.length n := by simp [hcw]
  rcases Nat.lt_or_ge p.length n with hkn | hge
  · -- first cycle: the column index is fresh, the table grows by `insert`
    have hmod : p.length % n = p.length := Nat.mod_eq_of_lt hkn
    have hmin : min p.length n = p.length := Nat.min_eq_left (Nat.le_of_lt hkn)
    have hnone : cw.get? (p.length % n) = none := by
      rw [List.get?_eq_none, hlen, hmod, hmin]
    rw [colWidthStep_none cw _ _ hnone]
    have hle : p.length % n ≤ cw.length := by rw [hlen, hmod, hmin]
    rw [if_pos hle]
    have hins : cw.insertIdx (p.length % n) s.width = cw ++ [s.width] := by
      have : p.length % n = cw.length := by rw [hlen, hmod, hmin]
      rw [this, List.insertIdx_length_self]
    rw [hins]
    have hmin' : min (p.length + 1) n = p.length + 1 :=
      Nat.min_eq_left (Nat.succ_le_of_lt hkn)
    rw [hmin', List.range_succ, List.map_append]
    refine congrArg some ?_
    rw [hcw, hmin]
    congr 1
    · apply List.map_congr_left
      intro c hc
      have hc' : c < p.length := List.mem_range.mp hc
      rw [hf]
      exact (specColWidth_append_ne n p s c (by omega)).symm
    · simp [specColWidth_new n p s hkn hw]
  · -- later cycles: the column already has an entry, which is maxed
    have hmin : min p.length n = n := Nat.min_eq_right hge
    have hmodlt : p.length % n < n := Nat.mod_lt _ hn
    have hsome : cw.get? (p.length % n) = some (f (p.length % n)) := by
      rw [hcw, List.get?_map, List.get?_range (by rw [hmin] at *; exact hmodlt)]
      rfl
    rw [colWidthStep_some cw _ _ _ hsome]
    have hmin' : min (p.length + 1) n = n := Nat.min_eq_right (by omega)
    rw [hmin']
    apply congrArg
    apply List.ext_get?
    intro j
    by_cases hj : j = p.length % n
    · subst hj
      rw [List.get?_set_eq, hsome]
      have hjlt : p.length % n < n := hmodlt
      rw [List.get?_map, List.get?_range hjlt]
      have := specColWidth_append_eq n p s (p.length % n) rfl
      simp [this, hf]
    · rw [List.get?_set_ne _ _ (fun h => hj h.symm)]
      by_cases hjn : j < n
      · rw [hcw, List.get?_map, List.get?_range (by rw [hmin]; exact hjn),
          List.get?_map, List.get?_range hjn]
        have := specColWidth_append_ne n p s j (fun h => hj h.symm)
        simp [this, hf]
      · rw [List.get?_eq_none.mpr, List.get?_eq_none.mpr]
        · simpa using Nat.le_of_not_lt hjn
        · rw [hlen, hmin]; exact Nat.le_of_not_lt hjn

theorem colWidthsAux_spec (n : Nat) (hn : 0 < n) :
    ∀ (rest p : List Size), (∀ t ∈ rest, 0 ≤ t.width) →
      colWidthsAux n ((List.range (min p.length n)).map (specColWidth n p))
          p.length rest
        = some ((List.range (min (p.length + rest.length) n)).map
            (specColWidth n (p ++ rest))) := by
  intro rest
  induction rest with
  | nil => intro p _; simp [colWidthsAux]
  | cons s rest ih =>
    intro p hw
    have hs : 0 ≤ s.width := hw s (List.mem_cons_self s rest)
    have hrest : ∀ t ∈ rest, 0 ≤ t.width := fun t ht =>
      hw t (List.mem_cons_of_mem s ht)
    simp only [colWidthsAux, colWidthStep_spec n p s hn hs, Option.bind_eq_bind,
      Option.some_bind]
    have := ih (p ++ [s]) hrest
    rw [List.length_append] at this
    simp only [List.length_singleton] at this
    rw [List.append_assoc] at this
    simp only [List.singleton_append] at this
    have harith : p.length + (s :: rest).length = p.length + 1 + rest.length := by
      simp only [List.length_cons]
      omega
    rw [harith]
    exact this

theorem computeColumnWidths_spec (n : Nat) (sizes : List Size) (hn : 0 < n)
    (hw : ∀ t ∈ sizes, 0 ≤ t.width) :
    computeColumnWidths n sizes =
      some ((List.range (min sizes.length n)).map (specColWidth n sizes)) := by
  have := colWidthsAux_spec n hn sizes [] hw
  simpa [computeColumnWidths] using this

theorem colWidthsAux_isSome_len (n : Nat) (hn : 0 < n) :
    ∀ (rest : List Size) (cw : List ℚ) (i : Nat), cw.length = min i n →
      ∃ cw', colWidthsAux n cw i rest = some cw' ∧
        cw'.length = min (i + rest.length) n := by
  intro rest
  induction rest with
  | nil =>
    intro cw i hcw
    exact ⟨cw, by simp [colWidthsAux], by simpa using hcw⟩
  | cons s rest ih =>
    intro cw i hcw
    rcases Nat.lt_or_ge i n with hin | hge
    · have hmod : i % n = i := Nat.mod_eq_of_lt hin
      have hlen : cw.length = i := by rw [hcw, Nat.min_eq_left (Nat.le_of_lt hin)]
      have hnone : cw.get? (i % n) = none := by
        rw [List.get?_eq_none, hmod, hlen]
      have hstep : colWidthStep cw (i % n) s.width =
          some (cw.insertIdx (i % n) s.width) := by
        rw [colWidthStep_none cw _ _ hnone, if_pos (by rw [hmod, hlen])]
      have hlen' : (cw.insertIdx (i % n) s.width).length = min (i + 1) n := by
        rw [List.length_insertIdx _ _ (by rw [hmod, hlen]), hlen,
          Nat.min_eq_left (Nat.succ_le_of_lt hin)]
      obtain ⟨cw', h1, h2⟩ := ih (cw.insertIdx (i % n) s.width) (i + 1) hlen'
      refine ⟨cw', ?_, ?_⟩
      · simp only [colWidthsAux, hstep, Option.bind_eq_bind, Option.some_bind]
        exact h1
      · rw [h2]; congr 1; simp only [List.length_cons]; omega
    · have hlen : cw.length = n := by rw [hcw, Nat.min_eq_right hge]
      have hmodlt : i % n < cw.length := by rw [hlen]; exact Nat.mod_lt _ hn
      have hsome : cw.get? (i % n) = some (cw.getD (i % n) 0) :=
        get?_eq_some_getD cw 0 (i % n) hmodlt
      have hstep : colWidthStep cw (i % n) s.width =
          some (cw.set (i % n) (max (cw.getD (i % n) 0) s.width)) :=
        colWidthStep_some cw _ _ _ hsome
      have hlen' : (cw.set (i % n) (max (cw.getD (i % n) 0) s.width)).length
          = min (i + 1) n := by
        rw [List.length_set, hlen, Nat.min_eq_right (by omega)]
      obtain ⟨cw', h1, h2⟩ := ih _ (i + 1) hlen'
      refine ⟨cw', ?_, ?_⟩
      · simp only [colWidthsAux, hstep, Option.bind_eq_bind, Option.some_bind]
        exact h1
      · rw [h2]; congr 1; simp only [List.length_cons]; omega

/-! ### Characterizing the row structure -/

theorem rowHeights_nil (L : Nat) : rowHeights L [] = [] := by
  rw [rowHeights]

theorem rowHeights_cons_eq (L : Nat) (hL : 0 < L) (s : Size)
    (rest : List Size) :
    rowHeights L (s :: rest) =
      specRowHeight L (s :: rest) 0 :: rowHeights L ((s :: rest).drop L) := by
  rw [rowHeights]
  have h1 : specRowHeight L (s :: rest) 0
      = (((s :: rest).take L).map Size.height).foldl max 0 := by
    simp [specRowHeight]
  have h2 : (s :: rest).drop L = rest.drop (L - 1) := by
    cases L with
    | zero => omega
    | succ L => simp [List.drop_succ_cons]
  rw [h1, h2]

theorem specRowHeight_succ (L : Nat) (sizes : List Size) (r : Nat) :
    specRowHeight L sizes (r + 1) = specRowHeight L (sizes.drop L) r := by
  unfold specRowHeight
  rw [List.drop_drop]
  have h : L + L * r = L * (r + 1) := by ring
  rw [h]

theorem ceil_div_pos_eq (k L : Nat) (hk : 0 < k) (hL : 0 < L) :
    (k + L - 1) / L = (k - 1) / L + 1 := by
  have h : k + L - 1 = (k - 1) + L := by omega
  rw [h, Nat.add_div_right _ hL]

theorem rowHeights_eq_map (L : Nat) (hL : 0 < L) :
    ∀ (m : Nat) (sizes : List Size), sizes.length ≤ m →
      rowHeights L sizes =
        (List.range ((sizes.length + L - 1) / L)).map (specRowHeight L sizes) := by
  intro m
  induction m with
  | zero =>
    intro sizes hlen
    have : sizes = [] := List.length_eq_zero.mp (Nat.le_zero.mp hlen)
    subst this
    simp [rowHeights_nil, Nat.div_eq_of_lt (show L - 1 < L by omega)]
  | succ m ih =>
    intro sizes hlen
    cases sizes with
    | nil =>
      simp [rowHeights_nil, Nat.div_eq_of_lt (show L - 1 < L by omega)]
    | cons s t =>
      rw [rowHeights_cons_eq L hL s t]
      have hdroplen : ((s :: t).drop L).length ≤ m := by
        rw [List.length_drop]
        simp only [List.length_cons] at hlen ⊢
        omega
      rw [ih ((s :: t).drop L) hdroplen]
      have hk : 0 < (s :: t).length := by simp
      rw [ceil_div_pos_eq _ L hk hL, List.range_succ_eq_map, List.map_cons]
      congr 1
      rw [List.map_map]
      have hcount : ((s :: t).length - 1) / L
          = (((s :: t).drop L).length + L - 1) / L := by
        rw [List.length_drop]
        rcases le_or_lt (s :: t).length L with hle | hlt
        · have h1 : ((s :: t).length - 1) / L = 0 :=
            Nat.div_eq_of_lt (by omega)
          have h2 : ((s :: t).length - L + L - 1) / L = 0 :=
            Nat.div_eq_of_lt (by omega)
          rw [h1, h2]
        · congr 1
          omega
      rw [← hcount]
      apply List.map_congr_left
      intro r _
      simp only [Function.comp_apply, Nat.succ_eq_add_one]
      exact (specRowHeight_succ L (s :: t) r).symm

theorem length_rowHeights (L : Nat) (hL : 0 < L) (sizes : List Size) :
    (rowHeights L sizes).length = (sizes.length + L - 1) / L := by
  rw [rowHeights_eq_map L hL sizes.length sizes le_rfl]
  simp

theorem rowHeights_take_sum (L : Nat) (hL : 0 < L) (sizes : List Size)
    (i : Nat) (hi : i < sizes.length) :
    ((rowHeights L sizes).take (i / L)).sum = specRowOffset L sizes (i / L) := by
  have hk : 0 < sizes.length := Nat.lt_of_le_of_lt (Nat.zero_le i) hi
  have hle : i / L ≤ (sizes.length - 1) / L := Nat.div_le_div_right (by omega)
  have hlt : i / L ≤ (sizes.length + L - 1) / L := by
    rw [ceil_div_pos_eq _ L hk hL]
    omega
  rw [rowHeights_eq_map L hL sizes.length sizes le_rfl, ← List.map_take,
    List.take_range, Nat.min_eq_left hlt]
  rfl

theorem rowHeights_sum (L : Nat) (hL : 0 < L) (sizes : List Size) :
    (rowHeights L sizes).sum =
      specRowOffset L sizes ((sizes.length + L - 1) / L) := by
  rw [rowHeights_eq_map L hL sizes.length sizes le_rfl]
  rfl

/-! ### Characterizing the `build_grid` loop -/

theorem buildGridLoop_nil (pairs : List (Nat × ℚ)) (i : Nat) (g r : ℚ) :
    buildGridLoop pairs i [] g r = ([], g, r) := rfl

theorem buildGridLoop_cons_wrap (pairs : List (Nat × ℚ)) (i : Nat) (s : Size)
    (rest : List Size) (g r : ℚ) (x : ℚ)
    (hpj : pairs.getD (i % pairs.length) (0, 0) = (0, x)) :
    buildGridLoop pairs i (s :: rest) g r =
      ((⟨s, x, g + r, []⟩ : Node) ::
          (buildGridLoop pairs (i + 1) rest (g + r) (max 0 s.height)).1,
        (buildGridLoop pairs (i + 1) rest (g + r) (max 0 s.height)).2) := by
  simp only [buildGridLoop]
  rw [hpj]
  simp

theorem buildGridLoop_cons_nowrap (pairs : List (Nat × ℚ)) (i : Nat) (s : Size)
    (rest : List Size) (g r : ℚ) (c : Nat) (x : ℚ)
    (hpj : pairs.getD (i % pairs.length) (0, 0) = (c, x)) (hc : c ≠ 0) :
    buildGridLoop pairs i (s :: rest) g r =
      ((⟨s, x, g, []⟩ : Node) ::
          (buildGridLoop pairs (i + 1) rest g (max r s.height)).1,
        (buildGridLoop pairs (i + 1) rest g (max r s.height)).2) := by
  simp only [buildGridLoop]
  rw [hpj]
  simp [hc]

theorem buildGridLoop_append (pairs : List (Nat × ℚ)) :
    ∀ (l1 l2 : List Size) (i : Nat) (g r : ℚ),
      buildGridLoop pairs i (l1 ++ l2) g r =
        ((buildGridLoop pairs i l1 g r).1 ++
            (buildGridLoop pairs (i + l1.length) l2
              (buildGridLoop pairs i l1 g r).2.1
              (buildGridLoop pairs i l1 g r).2.2).1,
          (buildGridLoop pairs (i + l1.length) l2
            (buildGridLoop pairs i l1 g r).2.1
            (buildGridLoop pairs i l1 g r).2.2).2) := by
  intro l1
  induction l1 with
  | nil => intro l2 i g r; simp [buildGridLoop_nil]
  | cons s l1 ih =>
    intro l2 i g r
    rw [List.cons_append]
    simp only [buildGridLoop]
    rw [ih l2 (i + 1)]
    have harith : i + 1 + l1.length = i + (s :: l1).length := by
      simp only [List.length_cons]
      omega
    rw [harith]
    rfl

theorem buildGridLoop_period (pairs : List (Nat × ℚ)) :
    ∀ (l : List Size) (i : Nat) (g r : ℚ),
      buildGridLoop pairs (pairs.length + i) l g r =
        buildGridLoop pairs i l g r := by
  intro l
  induction l with
  | nil => intros; rfl
  | cons s rest ih =>
    intro i g r
    simp only [buildGridLoop]
    rw [Nat.add_mod_left, Nat.add_assoc, ih (i + 1)]

theorem buildGridLoop_intra (pairs : List (Nat × ℚ)) (A : Nat → ℚ)
    (hp : ∀ j, j < pairs.length → pairs.getD j (0, 0) = (j, A j)) :
    ∀ (l : List Size) (i : Nat) (g r : ℚ), 0 < i →
      i + l.length ≤ pairs.length →
      (buildGridLoop pairs i l g r).2.1 = g ∧
      (buildGridLoop pairs i l g r).2.2 = (l.map Size.height).foldl max r ∧
      (buildGridLoop pairs i l g r).1.length = l.length ∧
      ∀ j, j < l.length →
        (buildGridLoop pairs i l g r).1.get? j =
          some ⟨l.getD j ⟨0, 0⟩, A (i + j), g, []⟩ := by
  intro l
  induction l with
  | nil =>
    intro i g r _ _
    refine ⟨rfl, rfl, rfl, ?_⟩
    intro j hj
    simp at hj
  | cons s rest ih =>
    intro i g r hi hlen
    have hiL : i < pairs.length := by
      simp only [List.length_cons] at hlen
      omega
    have hmod : i % pairs.length = i := Nat.mod_eq_of_lt hiL
    have hpj : pairs.getD (i % pairs.length) (0, 0) = (i, A i) := by
      rw [hmod]; exact hp i hiL
    rw [buildGridLoop_cons_nowrap pairs i s rest g r i (A i) hpj
      (by omega : i ≠ 0)]
    obtain ⟨ih1, ih2, ih3, ih4⟩ := ih (i + 1) g (max r s.height)
      (Nat.succ_pos i) (by simp only [List.length_cons] at hlen; omega)
    refine ⟨ih1, ?_, ?_, ?_⟩
    · rw [ih2]
      simp [List.foldl_cons]
    · simp [ih3]
    · intro j hj
      cases j with
      | zero =>
        simp [List.getD_cons_zero]
      | succ j =>
        simp only [List.get?]
        rw [ih4 j (by simp only [List.length_cons] at hj; omega)]
        have : i + 1 + j = i + (j + 1) := by omega
        rw [this, List.getD_cons_succ]

theorem buildGridLoop_main (pairs : List (Nat × ℚ)) (A : Nat → ℚ)
    (hL : 0 < pairs.length)
    (hp : ∀ j, j < pairs.length → pairs.getD j (0, 0) = (j, A j)) :
    ∀ (m : Nat) (sizes : List Size), sizes.length ≤ m → ∀ (g r : ℚ),
      (buildGridLoop pairs 0 sizes g r).1.length = sizes.length ∧
      ((buildGridLoop pairs 0 sizes g r).2.1 +
          (buildGridLoop pairs 0 sizes g r).2.2
        = g + r + (rowHeights pairs.length sizes).sum) ∧
      ∀ i, i < sizes.length →
        (buildGridLoop pairs 0 sizes g r).1.get? i =
          some ⟨sizes.getD i ⟨0, 0⟩, A (i % pairs.length),
                g + r + ((rowHeights pairs.length sizes).take
                  (i / pairs.length)).sum, []⟩ := by
  intro m
  induction m with
  | zero =>
    intro sizes hlen g r
    have : sizes = [] := List.length_eq_zero.mp (Nat.le_zero.mp hlen)
    subst this
    refine ⟨rfl, by simp [buildGridLoop_nil, rowHeights_nil], ?_⟩
    intro i hi
    simp at hi
  | succ m ih =>
    intro sizes hlen g r
    cases sizes with
    | nil =>
      refine ⟨rfl, by simp [buildGridLoop_nil, rowHeights_nil], ?_⟩
      intro i hi
      simp at hi
    | cons s t =>
      have hL1 : pairs.length - 1 + 1 = pairs.length := by omega
      have hpj0 : pairs.getD (0 % pairs.length) (0, 0) = (0, A 0) := by
        rw [Nat.zero_mod]; exact hp 0 hL
      have e1 := buildGridLoop_cons_wrap pairs 0 s t g r (A 0) hpj0
      have e2 : t = t.take (pairs.length - 1) ++ t.drop (pairs.length - 1) :=
        (List.take_append_drop _ t).symm
      have e3 : buildGridLoop pairs 1 t (g + r) (max 0 s.height) =
          ((buildGridLoop pairs 1 (t.take (pairs.length - 1)) (g + r)
              (max 0 s.height)).1 ++
            (buildGridLoop pairs (1 + (t.take (pairs.length - 1)).length)
              (t.drop (pairs.length - 1))
              (buildGridLoop pairs 1 (t.take (pairs.length - 1)) (g + r)
                (max 0 s.height)).2.1
              (buildGridLoop pairs 1 (t.take (pairs.length - 1)) (g + r)
                (max 0 s.height)).2.2).1,
          (buildGridLoop pairs (1 + (t.take (pairs.length - 1)).length)
              (t.drop (pairs.length - 1))
              (buildGridLoop pairs 1 (t.take (pairs.length - 1)) (g + r)
                (max 0 s.height)).2.1
              (buildGridLoop pairs 1 (t.take (pairs.length - 1)) (g + r)
                (max 0 s.height)).2.2).2) := by
        conv_lhs => rw [e2]
        exact buildGridLoop_append pairs _ _ 1 (g + r) (max 0 s.height)
      have hta : 1 + (t.take (pairs.length - 1)).length ≤ pairs.length := by
        rw [List.length_take]
        omega
      obtain ⟨a1, a2, a3, a4⟩ := buildGridLoop_intra pairs A hp
        (t.take (pairs.length - 1)) 1 (g + r) (max 0 s.height) one_pos hta
      have htake : (s :: t).take pairs.length
          = s :: t.take (pairs.length - 1) := by
        conv_lhs => rw [← hL1]
        exact List.take_succ_cons
      have hrh : (List.map Size.height (t.take (pairs.length - 1))).foldl
          max (max 0 s.height) = specRowHeight pairs.length (s :: t) 0 := by
        simp [specRowHeight, htake, List.foldl_cons]
      have hdropst : (s :: t).drop pairs.length = t.drop (pairs.length - 1) := by
        conv_lhs => rw [← hL1]
        exact List.drop_succ_cons
      have hRH : rowHeights pairs.length (s :: t)
          = specRowHeight pairs.length (s :: t) 0 ::
              rowHeights pairs.length (t.drop (pairs.length - 1)) := by
        rw [rowHeights_cons_eq pairs.length hL s t, hdropst]
      rw [a1] at e3
      rw [a2] at e3
      rw [hrh] at e3
      rcases le_or_lt t.length (pairs.length - 1) with hsmall | hbig
      · -- the whole list fits in the first row
        have htakeall : t.take (pairs.length - 1) = t :=
          List.take_all_of_le hsmall
        have hdropnil : t.drop (pairs.length - 1) = [] :=
          List.drop_eq_nil_of_le hsmall
        rw [hdropnil, buildGridLoop_nil] at e3
        have eAll : buildGridLoop pairs 0 (s :: t) g r
            = ((⟨s, A 0, g + r, []⟩ : Node) ::
                (buildGridLoop pairs 1 (t.take (pairs.length - 1)) (g + r)
                  (max 0 s.height)).1,
               g + r, specRowHeight pairs.length (s :: t) 0) := by
          rw [e1, e3]
          simp
        have hRHnil : rowHeights pairs.length (s :: t)
            = [specRowHeight pairs.length (s :: t) 0] := by
          rw [hRH, hdropnil, rowHeights_nil]
        refine ⟨?_, ?_, ?_⟩
        · rw [eAll]
          simp only [List.length_cons]
          rw [a3, htakeall]
        · rw [eAll, hRHnil]
          simp
        · intro i hi
          rw [eAll]
          cases i with
          | zero =>
            simp
          | succ j =>
            have hjt : j < t.length := by
              simp only [List.length_cons] at hi
              omega
            simp only [List.get?]
            rw [a4 j (by rw [htakeall]; exact hjt)]
            have hgd : (t.take (pairs.length - 1)).getD j ⟨0, 0⟩
                = (s :: t).getD (j + 1) ⟨0, 0⟩ := by
              rw [htakeall, List.getD_cons_succ]
            have hmod : (j + 1) % pairs.length = j + 1 :=
              Nat.mod_eq_of_lt (by omega)
            have hdiv : (j + 1) / pairs.length = 0 :=
              Nat.div_eq_of_lt (by omega)
            rw [hgd, hmod, hdiv]
            simp [Nat.add_comm]
      · -- the first row is full; recurse on the remaining rows
        have htlen : (t.take (pairs.length - 1)).length = pairs.length - 1 := by
          rw [List.length_take]
          omega
        have hL1' : 1 + (pairs.length - 1) = pairs.length := by omega
        rw [htlen, hL1'] at e3
        have hper := buildGridLoop_period pairs (t.drop (pairs.length - 1)) 0
          (g + r) (specRowHeight pairs.length (s :: t) 0)
        rw [Nat.add_zero] at hper
        rw [hper] at e3
        have hrest : (t.drop (pairs.length - 1)).length ≤ m := by
          rw [List.length_drop]
          simp only [List.length_cons] at hlen
          omega
        obtain ⟨ihl, ihs, ihp⟩ := ih (t.drop (pairs.length - 1)) hrest (g + r)
          (specRowHeight pairs.length (s :: t) 0)
        have eAll : buildGridLoop pairs 0 (s :: t) g r
            = ((⟨s, A 0, g + r, []⟩ : Node) ::
                ((buildGridLoop pairs 1 (t.take (pairs.length - 1)) (g + r)
                    (max 0 s.height)).1 ++
                  (buildGridLoop pairs 0 (t.drop (pairs.length - 1)) (g + r)
                    (specRowHeight pairs.length (s :: t) 0)).1),
               (buildGridLoop pairs 0 (t.drop (pairs.length - 1)) (g + r)
                  (specRowHeight pairs.length (s :: t) 0)).2.1,
               (buildGridLoop pairs 0 (t.drop (pairs.length - 1)) (g + r)
                  (specRowHeight pairs.length (s :: t) 0)).2.2) := by
          rw [e1, e3]
        refine ⟨?_, ?_, ?_⟩
        · rw [eAll]
          simp only [List.length_cons, List.length_append, a3, htlen, ihl,
            List.length_drop]
          simp only [List.length_cons] at hlen ⊢
          omega
        · rw [eAll]
          simp only []
          rw [ihs, hRH]
          simp [List.sum_cons]
          ring
        · intro i hi
          rw [eAll]
          cases i with
          | zero =>
            simp
          | succ j =>
            simp only [List.get?]
            rcases lt_or_le j (pairs.length - 1) with hjs | hjb
            · -- still in the first row
              rw [List.get?_append (by rw [a3, htlen]; exact hjs)]
              rw [a4 j (by rw [htlen]; exact hjs)]
              have hgd : (t.take (pairs.length - 1)).getD j ⟨0, 0⟩
                  = (s :: t).getD (j + 1) ⟨0, 0⟩ := by
                rw [List.getD_cons_succ, List.getD_eq_get?, List.getD_eq_get?,
                  List.get?_take hjs]
              have hmod : (j + 1) % pairs.length = j + 1 :=
                Nat.mod_eq_of_lt (by omega)
              have hdiv : (j + 1) / pairs.length = 0 :=
                Nat.div_eq_of_lt (by omega)
              rw [hgd, hmod, hdiv]
              simp [Nat.add_comm]
            · -- in a later row: index into the recursive result
              rw [List.get?_append_right (by rw [a3, htlen]; exact hjb)]
              rw [a3, htlen]
              have hjt : j < t.length := by
                simp only [List.length_cons] at hi
                omega
              have hi' : j - (pairs.length - 1)
                  < (t.drop (pairs.length - 1)).length := by
                rw [List.length_drop]
                omega
              rw [ihp (j - (pairs.length - 1)) hi']
              have hgd : (t.drop (pairs.length - 1)).getD
                  (j - (pairs.length - 1)) ⟨0, 0⟩
                  = (s :: t).getD (j + 1) ⟨0, 0⟩ := by
                rw [List.getD_cons_succ, List.getD_eq_get?, List.getD_eq_get?,
                  List.get?_drop]
                have harg : pairs.length - 1 + (j - (pairs.length - 1)) = j := by
                  omega
                rw [harg]
              have hsplit : j + 1 = (j - (pairs.length - 1)) + pairs.length := by
                omega
              have hmod : (j - (pairs.length - 1)) % pairs.length
                  = (j + 1) % pairs.length := by
                conv_rhs => rw [hsplit]
                rw [Nat.add_mod_right]
              have hdiv : (j + 1) / pairs.length
                  = (j - (pairs.length - 1)) / pairs.length + 1 := by
                conv_lhs => rw [hsplit]
                rw [Nat.add_div_right _ hL]
              rw [hgd, hmod, hdiv, hRH, List.take_succ_cons]
              simp [List.sum_cons, add_assoc]

/-! ### The layout theorem for the `Columns` strategy -/

theorem specRowHeight_zero_of_le (L : Nat) (sizes : List Size)
    (h : sizes.length ≤ L) :
    specRowHeight L sizes 0 = (sizes.map Size.height).foldl max 0 := by
  simp [specRowHeight, List.take_all_of_le h]

theorem ceil_div_eq_one (k L : Nat) (hk : 0 < k) (hkL : k ≤ L) :
    (k + L - 1) / L = 1 := by
  have hL : 0 < L := by omega
  rw [ceil_div_pos_eq k L hk hL, Nat.div_eq_of_lt (by omega)]

theorem layout_columns_eq (n : Nat) (es : List (Limits → Size))
    (limits : Limits) (hn : 0 < n) (hes : es ≠ [])
    (hw : ∀ e ∈ es, 0 ≤ (e limits).width) :
    layout ⟨Strategy.Columns n, es⟩ limits
      = some (specColumnsNode n (es.map fun e => e limits)) := by
  set sizes := es.map fun e => e limits with hsizes
  have hk : 0 < sizes.length := by
    rw [hsizes, List.length_map, List.length_pos]
    exact hes
  have hws : ∀ t ∈ sizes, 0 ≤ t.width := by
    intro t ht
    rw [hsizes] at ht
    obtain ⟨e, he, rfl⟩ := List.mem_map.mp ht
    exact hw e he
  have hcw := computeColumnWidths_spec n sizes hn hws
  set cw := (List.range (min sizes.length n)).map (specColWidth n sizes)
    with hcwdef
  set aligns := List.scanl (· + ·) (0 : ℚ) cw with haligns
  set pairs := (List.range n).zip aligns with hpairs
  have hcwlen : cw.length = min sizes.length n := by
    rw [hcwdef]; simp
  have halen : aligns.length = min sizes.length n + 1 := by
    rw [haligns, List.length_scanl, hcwlen]
  have hLval : pairs.length = min n (min sizes.length n + 1) := by
    rw [hpairs, List.length_zip, List.length_range, halen]
  have hL : 0 < pairs.length := by
    rw [hLval]; omega
  have hle_n : pairs.length ≤ n := by rw [hLval]; omega
  have hle_cw : pairs.length ≤ cw.length + 1 := by rw [hLval, hcwlen]; omega
  have hp : ∀ j, j < pairs.length →
      pairs.getD j (0, 0) = (j, (cw.take j).sum) := by
    intro j hj
    have hja : j < aligns.length := by rw [halen]; omega
    have hget : pairs.get? j = some (j, aligns.getD j 0) :=
      zip_range_get? n aligns j (by omega) hja 0
    have hgetal : aligns.get? j = some (0 + (cw.take j).sum) := by
      rw [haligns]
      exact scanl_add_get? cw 0 j (by rw [hcwlen]; omega)
    have : aligns.getD j 0 = (cw.take j).sum := by
      rw [List.getD_eq_get?, hgetal, zero_add]
      rfl
    rw [List.getD_eq_get?, hget, this]
    rfl
  obtain ⟨mlen, msum, mpt⟩ := buildGridLoop_main pairs (fun j => (cw.take j).sum)
    hL hp sizes.length sizes le_rfl 0 0
  -- the case analysis on whether all columns are touched
  have hLcase : (n ≤ sizes.length ∧ pairs.length = n) ∨
      (sizes.length < n ∧ pairs.length = sizes.length + 1) := by
    rcases le_or_lt n sizes.length with hnk | hkn
    · exact Or.inl ⟨hnk, by rw [hLval]; omega⟩
    · exact Or.inr ⟨hkn, by rw [hLval]; omega⟩
  have hmodDiv : ∀ i, i < sizes.length →
      i % pairs.length = i % n ∧ i / pairs.length = i / n := by
    intro i hi
    rcases hLcase with ⟨hnk, hLn⟩ | ⟨hkn, hLk⟩
    · rw [hLn]; exact ⟨rfl, rfl⟩
    · rw [hLk]
      constructor
      · rw [Nat.mod_eq_of_lt (by omega), Nat.mod_eq_of_lt (by omega)]
      · rw [Nat.div_eq_of_lt (by omega), Nat.div_eq_of_lt (by omega)]
  have hx : ∀ i, i < sizes.length →
      (cw.take (i % pairs.length)).sum = specColOffset n sizes (i % n) := by
    intro i hi
    rw [(hmodDiv i hi).1]
    have hmn : i % n ≤ min sizes.length n := by
      rcases hLcase with ⟨hnk, _⟩ | ⟨hkn, _⟩
      · have := Nat.mod_lt i hn
        omega
      · rw [Nat.mod_eq_of_lt (by omega)]
        omega
    rw [hcwdef, ← List.map_take, List.take_range, Nat.min_eq_left hmn]
    rfl
  have hy : ∀ i, i < sizes.length →
      ((rowHeights pairs.length sizes).take (i / pairs.length)).sum
        = specRowOffset n sizes (i / n) := by
    intro i hi
    rcases hLcase with ⟨hnk, hLn⟩ | ⟨hkn, hLk⟩
    · rw [hLn] at *
      rw [rowHeights_take_sum n hn sizes i hi]
    · have hdiv0 : i / pairs.length = 0 := by
        rw [hLk]; exact Nat.div_eq_of_lt (by omega)
      have hdiv0' : i / n = 0 := Nat.div_eq_of_lt (by omega)
      rw [hdiv0, hdiv0']
      simp [specRowOffset]
  have hh : (rowHeights pairs.length sizes).sum
      = ((List.range ((sizes.length + n - 1) / n)).map
          (specRowHeight n sizes)).sum := by
    rcases hLcase with ⟨hnk, hLn⟩ | ⟨hkn, hLk⟩
    · rw [hLn, rowHeights_sum n hn sizes]
      rfl
    · rw [hLk, rowHeights_sum (sizes.length + 1) (by omega) sizes]
      have hc1 : (sizes.length + (sizes.length + 1) - 1) / (sizes.length + 1)
          = 1 := ceil_div_eq_one sizes.length (sizes.length + 1) hk (by omega)
      have hc2 : (sizes.length + n - 1) / n = 1 :=
        ceil_div_eq_one sizes.length n hk (by omega)
      rw [hc1, hc2]
      simp only [specRowOffset]
      have hr1 : List.range 1 = [0] := rfl
      rw [hr1]
      simp only [List.map_cons, List.map_nil, List.sum_cons, List.sum_nil,
        add_zero]
      rw [specRowHeight_zero_of_le (sizes.length + 1) sizes (by omega),
        specRowHeight_zero_of_le n sizes (by omega)]
  have hchildren : (buildGridLoop pairs 0 sizes 0 0).1 =
      sizes.enum.map fun p =>
        ({ size := p.2, x := specColOffset n sizes (p.1 % n),
           y := specRowOffset n sizes (p.1 / n), children := [] } : Node) := by
    apply List.ext_get?
    intro i
    rcases lt_or_le i sizes.length with hi | hi
    · rw [mpt i hi, List.get?_map, List.enum_get?,
        get?_eq_some_getD sizes ⟨0, 0⟩ i hi]
      simp only [Option.map_some']
      rw [← hx i hi, ← hy i hi]
      simp
    · rw [List.get?_eq_none.mpr, List.get?_eq_none.mpr]
      · rw [List.length_map, List.enum_length]
        exact hi
      · rw [mlen]; exact hi
  -- assemble: unfold `layout` down to `build_grid` and rewrite the pieces
  have hne : es.isEmpty = false := List.isEmpty_eq_false.mpr hes
  have hpne : pairs.isEmpty = false := by
    rw [List.isEmpty_eq_false]
    intro hnil
    rw [hnil] at hL
    simp at hL
  simp only [layout, hne, Bool.false_eq_true, if_false]
  rw [if_neg (by omega : ¬ n = 0)]
  rw [← hsizes, hcw]
  simp only [buildGrid, ← haligns, ← hpairs, hpne, Bool.false_eq_true,
    if_false]
  refine congrArg some ?_
  unfold specColumnsNode Node.withChildren
  rw [hchildren, msum, hh]
  simp [hcwdef]

/-! ### The layout theorem for the `ColumnWidth` strategy -/

theorem layout_colwidth_eq (wn : Nat) (es : List (Limits → Size))
    (limits : Limits) (hes : es ≠ [])
    (hcols : 0 < floorDivToUsize limits.maxWidth (wn : ℚ)) :
    layout ⟨Strategy.ColumnWidth wn, es⟩ limits
      = some (specCWNode (floorDivToUsize limits.maxWidth (wn : ℚ)) (wn : ℚ)
          (es.map fun e => e (limits.withWidth (wn : ℚ)))) := by
  set cols := floorDivToUsize limits.maxWidth (wn : ℚ) with hcolsdef
  set sizes := es.map fun e => e (limits.withWidth (wn : ℚ)) with hsizes
  set aligns := (List.range cols).map fun i : Nat => (i : ℚ) * (wn : ℚ)
    with haligns
  set pairs := (List.range cols).zip aligns with hpairs
  have halen : aligns.length = cols := by
    rw [haligns, List.length_map, List.length_range]
  have hLval : pairs.length = cols := by
    rw [hpairs, List.length_zip, List.length_range, halen, Nat.min_self]
  have hL : 0 < pairs.length := by rw [hLval]; exact hcols
  have hp : ∀ j, j < pairs.length →
      pairs.getD j (0, 0) = (j, (j : ℚ) * (wn : ℚ)) := by
    intro j hj
    have hjc : j < cols := by rw [← hLval]; exact hj
    have hja : j < aligns.length := by rw [halen]; exact hjc
    have hget : pairs.get? j = some (j, aligns.getD j 0) :=
      zip_range_get? cols aligns j hjc hja 0
    have hgetal : aligns.get? j = some ((j : ℚ) * (wn : ℚ)) := by
      rw [haligns, List.get?_map, List.get?_range hjc]
      rfl
    have : aligns.getD j 0 = (j : ℚ) * (wn : ℚ) := by
      rw [List.getD_eq_get?, hgetal]
      rfl
    rw [List.getD_eq_get?, hget, this]
    rfl
  obtain ⟨mlen, msum, mpt⟩ := buildGridLoop_main pairs
    (fun j => (j : ℚ) * (wn : ℚ)) hL hp sizes.length sizes le_rfl 0 0
  have hchildren : (buildGridLoop pairs 0 sizes 0 0).1 =
      sizes.enum.map fun p =>
        ({ size := p.2, x := ((p.1 % cols : Nat) : ℚ) * (wn : ℚ),
           y := specRowOffset cols sizes (p.1 / cols), children := [] } : Node) := by
    apply List.ext_get?
    intro i
    rcases lt_or_le i sizes.length with hi | hi
    · rw [mpt i hi, List.get?_map, List.enum_get?,
        get?_eq_some_getD sizes ⟨0, 0⟩ i hi]
      simp only [Option.map_some']
      have hy : ((rowHeights pairs.length sizes).take
          (i / pairs.length)).sum = specRowOffset cols sizes (i / cols) := by
        rw [hLval] at *
        exact rowHeights_take_sum cols hcols sizes i hi
      rw [← hy, hLval]
      simp
    · rw [List.get?_eq_none.mpr, List.get?_eq_none.mpr]
      · rw [List.length_map, List.enum_length]
        exact hi
      · rw [mlen]; exact hi
  have hne : es.isEmpty = false := List.isEmpty_eq_false.mpr hes
  have hpne : pairs.isEmpty = false := by
    rw [List.isEmpty_eq_false]
    intro hnil
    rw [hnil] at hL
    simp at hL
  simp only [layout, hne, Bool.false_eq_true, if_false]
  simp only [buildGrid, ← hcolsdef, ← hsizes, ← haligns, ← hpairs, hpne,
    Bool.false_eq_true, if_false]
  refine congrArg some ?_
  unfold specCWNode Node.withChildren
  rw [hchildren, msum, hLval, rowHeights_sum cols hcols sizes]
  simp [specRowOffset]

/-! ### Helpers for the event-status and hashing claims -/

theorem merge_eq_captured (a b : Status) :
    Status.merge a b = Status.Captured ↔
      a = Status.Captured ∨ b = Status.Captured := by
  cases a <;> cases b <;> simp [Status.merge]

theorem foldl_merge_captured : ∀ (l : List Status) (s : Status),
    l.foldl Status.merge s = Status.Captured ↔
      s = Status.Captured ∨ Status.Captured ∈ l := by
  intro l
  induction l with
  | nil => intro s; simp
  | cons a l ih =>
    intro s
    rw [List.foldl_cons, ih, merge_eq_captured]
    constructor
    · rintro ((h | h) | h)
      · exact Or.inl h
      · exact Or.inr (by rw [h]; exact List.mem_cons_self _ _)
      · exact Or.inr (List.mem_cons_of_mem a h)
    · rintro (h | h)
      · exact Or.inl (Or.inl h)
      · rcases List.mem_cons.mp h with h | h
        · exact Or.inl (Or.inr h.symm)
        · exact Or.inr h

theorem foldl_append_eq_join : ∀ (l : List (List HashTok))
    (init : List HashTok),
    l.foldl (fun st h => st ++ h) init = init ++ l.join := by
  intro l
  induction l with
  | nil => intro init; simp
  | cons h t ih =>
    intro init
    rw [List.foldl_cons, ih, List.join]
    simp [List.append_assoc]

/-! ### Pointwise description of the two specification nodes -/

theorem specColumnsNode_children_get? (n : Nat) (sizes : List Size) (i : Nat)
    (hi : i < sizes.length) :
    (specColumnsNode n sizes).children.get? i =
      some { size := sizes.getD i ⟨0, 0⟩, x := specColOffset n sizes (i % n),
             y := specRowOffset n sizes (i / n), children := [] } := by
  simp only [specColumnsNode, Node.withChildren]
  rw [List.get?_map, List.enum_get?, get?_eq_some_getD sizes ⟨0, 0⟩ i hi]
  rfl

theorem specCWNode_children_get? (cols : Nat) (w : ℚ) (sizes : List Size)
    (i : Nat) (hi : i < sizes.length) :
    (specCWNode cols w sizes).children.get? i =
      some { size := sizes.getD i ⟨0, 0⟩, x := ((i % cols : Nat) : ℚ) * w,
             y := specRowOffset cols sizes (i / cols), children := [] } := by
  simp only [specCWNode, Node.withChildren]
  rw [List.get?_map, List.enum_get?, get?_eq_some_getD sizes ⟨0, 0⟩ i hi]
  rfl

/-! ### The claims -/

/-- Claim C1: for a `Grid` built with `with_columns n` (`n > 0`) holding
`k` elements, `layout` places element `i` (0-based) in column `i % n` and
row `i / n` — child `i` is positioned at (its column's horizontal offset,
its row's vertical offset) and keeps its natural measured size, never
stretched — and the layout comprises `⌈k/n⌉` rows: the grid height is the
accumulated row offset after row `⌈k/n⌉ = (k + n - 1) / n`. -/
theorem C1_columns_placement (n : Nat) (es : List (Limits → Size))
    (limits : Limits) (hn : 0 < n) (hes : es ≠ [])
    (hw : ∀ e ∈ es, 0 ≤ (e limits).width) :
    ∃ N, layout ⟨Strategy.Columns n, es⟩ limits = some N ∧
      N.children.length = es.length ∧
      (∀ i, i < es.length →
        N.children.get? i =
          some { size := (es.map fun e => e limits).getD i ⟨0, 0⟩,
                 x := specColOffset n (es.map fun e => e limits) (i % n),
                 y := specRowOffset n (es.map fun e => e limits) (i / n),
                 children := [] }) ∧
      N.size.height = specRowOffset n (es.map fun e => e limits)
        ((es.length + n - 1) / n) := by
  refine ⟨specColumnsNode n (es.map fun e => e limits),
    layout_columns_eq n es limits hn hes hw, ?_, ?_, ?_⟩
  · simp [specColumnsNode, Node.withChildren]
  · intro i hi
    exact specColumnsNode_children_get? n (es.map fun e => e limits) i
      (by simpa using hi)
  · simp [specColumnsNode, Node.withChildren, specRowOffset]

/-- Witness for C1: the spec's worked example — `Columns 2` with four
children of sizes `(10,5), (20,5), (5,8), (5,8)`. -/
theorem C1_columns_placement_witness :
    (0 < 2 ∧ esA ≠ [] ∧ ∀ e ∈ esA, 0 ≤ (e limA).width) ∧
    ∃ N, layout ⟨Strategy.Columns 2, esA⟩ limA = some N ∧
      N.children.length = esA.length ∧
      (∀ i, i < esA.length →
        N.children.get? i =
          some { size := (esA.map fun e => e limA).getD i ⟨0, 0⟩,
                 x := specColOffset 2 (esA.map fun e => e limA) (i % 2),
                 y := specRowOffset 2 (esA.map fun e => e limA) (i / 2),
                 children := [] }) ∧
      N.size.height = specRowOffset 2 (esA.map fun e => e limA)
        ((esA.length + 2 - 1) / 2) :=
  ⟨⟨by decide, by simp [esA], by decide⟩,
    C1_columns_placement 2 esA limA (by decide) (by simp [esA]) (by decide)⟩

/-- Claim C2: for `Columns n` (`n > 0`, non-empty elements): each touched
column's width is the maximum natural width among the elements assigned to
it (`specColWidth`), the horizontal offset of column 0 is 0 and of column
`c` the sum of the widths of columns `0..c`, and the grid's total width is
the sum over the `min k n` *touched* columns only. -/
theorem C2_columns_widths (n : Nat) (es : List (Limits → Size))
    (limits : Limits) (hn : 0 < n) (hes : es ≠ [])
    (hw : ∀ e ∈ es, 0 ≤ (e limits).width) :
    ∃ N, layout ⟨Strategy.Columns n, es⟩ limits = some N ∧
      N.size.width = ((List.range (min es.length n)).map
        (specColWidth n (es.map fun e => e limits))).sum ∧
      specColOffset n (es.map fun e => e limits) 0 = 0 ∧
      ∀ i, i < es.length →
        (N.children.get? i).map Node.x =
          some (((List.range (i % n)).map
            (specColWidth n (es.map fun e => e limits))).sum) := by
  refine ⟨specColumnsNode n (es.map fun e => e limits),
    layout_columns_eq n es limits hn hes hw, ?_, ?_, ?_⟩
  · simp [specColumnsNode, Node.withChildren]
  · simp [specColOffset]
  · intro i hi
    rw [specColumnsNode_children_get? n (es.map fun e => e limits) i
      (by simpa using hi)]
    rfl

/-- Witness for C2: `Columns 3` with two elements — the third column is
untouched and contributes nothing. -/
theorem C2_columns_widths_witness :
    (0 < 3 ∧ esB ≠ [] ∧ ∀ e ∈ esB, 0 ≤ (e limA).width) ∧
    ∃ N, layout ⟨Strategy.Columns 3, esB⟩ limA = some N ∧
      N.size.width = ((List.range (min esB.length 3)).map
        (specColWidth 3 (esB.map fun e => e limA))).sum ∧
      specColOffset 3 (esB.map fun e => e limA) 0 = 0 ∧
      ∀ i, i < esB.length →
        (N.children.get? i).map Node.x =
          some (((List.range (i % 3)).map
            (specColWidth 3 (esB.map fun e => e limA))).sum) :=
  ⟨⟨by decide, by simp [esB], by decide⟩,
    C2_columns_widths 3 esB limA (by decide) (by simp [esB]) (by decide)⟩

/-- Claim C3: for either strategy, whenever children are laid out, a new
row starts each time the column index wraps to 0 (elements are chunked in
rows), each row's height is the maximum natural height among its elements
(`specRowHeight`), each row's vertical offset is the running sum of the
previous rows' heights (`specRowOffset`), and the grid's total height is
the sum of all row heights including the final partial row. -/
theorem C3_row_structure :
    (∀ (n : Nat) (es : List (Limits → Size)) (limits : Limits),
      0 < n → es ≠ [] → (∀ e ∈ es, 0 ≤ (e limits).width) →
      ∃ N, layout ⟨Strategy.Columns n, es⟩ limits = some N ∧
        N.size.height = ((List.range ((es.length + n - 1) / n)).map
          (specRowHeight n (es.map fun e => e limits))).sum ∧
        ∀ i, i < es.length →
          (N.children.get? i).map Node.y =
            some (specRowOffset n (es.map fun e => e limits) (i / n))) ∧
    (∀ (wn : Nat) (es : List (Limits → Size)) (limits : Limits),
      es ≠ [] → 0 < floorDivToUsize limits.maxWidth (wn : ℚ) →
      ∃ N, layout ⟨Strategy.ColumnWidth wn, es⟩ limits = some N ∧
        N.size.height =
          ((List.range ((es.length + floorDivToUsize limits.maxWidth (wn : ℚ)
              - 1) / floorDivToUsize limits.maxWidth (wn : ℚ))).map
            (specRowHeight (floorDivToUsize limits.maxWidth (wn : ℚ))
              (es.map fun e => e (limits.withWidth (wn : ℚ))))).sum ∧
        ∀ i, i < es.length →
          (N.children.get? i).map Node.y =
            some (specRowOffset (floorDivToUsize limits.maxWidth (wn : ℚ))
              (es.map fun e => e (limits.withWidth (wn : ℚ)))
              (i / floorDivToUsize limits.maxWidth (wn : ℚ)))) := by
  constructor
  · intro n es limits hn hes hw
    refine ⟨specColumnsNode n (es.map fun e => e limits),
      layout_columns_eq n es limits hn hes hw, ?_, ?_⟩
    · simp [specColumnsNode, Node.withChildren]
    · intro i hi
      rw [specColumnsNode_children_get? n (es.map fun e => e limits) i
        (by simpa using hi)]
      rfl
  · intro wn es limits hes hcols
    refine ⟨specCWNode (floorDivToUsize limits.maxWidth (wn : ℚ)) (wn : ℚ)
        (es.map fun e => e (limits.withWidth (wn : ℚ))),
      layout_colwidth_eq wn es limits hes hcols, ?_, ?_⟩
    · simp [specCWNode, Node.withChildren]
    · intro i hi
      rw [specCWNode_children_get? (floorDivToUsize limits.maxWidth (wn : ℚ))
        (wn : ℚ) (es.map fun e => e (limits.withWidth (wn : ℚ))) i
        (by simpa using hi)]
      rfl

theorem toNatFloor_limB : Int.toNat ⌊limB.maxWidth / ((10 : Nat) : ℚ)⌋ = 2 := by
  rw [show ⌊limB.maxWidth / ((10 : Nat) : ℚ)⌋ = 2 from by norm_num [limB]]
  rfl

theorem floorDiv_limB : floorDivToUsize limB.maxWidth ((10 : Nat) : ℚ) = 2 := by
  rw [floorDivToUsize, if_neg (by norm_num), toNatFloor_limB]
  decide

/-- Witness for C3: the Columns part on the spec's worked example and the
ColumnWidth part with width 10 inside max width 25 (two columns). -/
theorem C3_row_structure_witness :
    ((0 < 2 ∧ esA ≠ [] ∧ ∀ e ∈ esA, 0 ≤ (e limA).width) ∧
      ∃ N, layout ⟨Strategy.Columns 2, esA⟩ limA = some N ∧
        N.size.height = ((List.range ((esA.length + 2 - 1) / 2)).map
          (specRowHeight 2 (esA.map fun e => e limA))).sum ∧
        ∀ i, i < esA.length →
          (N.children.get? i).map Node.y =
            some (specRowOffset 2 (esA.map fun e => e limA) (i / 2))) ∧
    ((esB ≠ [] ∧ 0 < floorDivToUsize limB.maxWidth ((10 : Nat) : ℚ)) ∧
      ∃ N, layout ⟨Strategy.ColumnWidth 10, esB⟩ limB = some N ∧
        N.size.height =
          ((List.range ((esB.length + floorDivToUsize limB.maxWidth
              ((10 : Nat) : ℚ) - 1) /
              floorDivToUsize limB.maxWidth ((10 : Nat) : ℚ))).map
            (specRowHeight (floorDivToUsize limB.maxWidth ((10 : Nat) : ℚ))
              (esB.map fun e => e (limB.withWidth ((10 : Nat) : ℚ))))).sum ∧
        ∀ i, i < esB.length →
          (N.children.get? i).map Node.y =
            some (specRowOffset (floorDivToUsize limB.maxWidth
              ((10 : Nat) : ℚ))
              (esB.map fun e => e (limB.withWidth ((10 : Nat) : ℚ)))
              (i / floorDivToUsize limB.maxWidth ((10 : Nat) : ℚ)))) :=
  ⟨⟨⟨by decide, by simp [esA], by decide⟩,
      C3_row_structure.1 2 esA limA (by decide) (by simp [esA]) (by decide)⟩,
    ⟨⟨by simp [esB], by rw [floorDiv_limB]; decide⟩,
      C3_row_structure.2 10 esB limB (by simp [esB])
        (by rw [floorDiv_limB]; decide)⟩⟩

/-- Claim C4: for `with_column_width w` (`w > 0`), every child is measured
against the host limits narrowed to a fixed width of exactly `w`, the
column count is `⌊max_available_width / w⌋` taken from the unconstrained
outer limits, column offsets are exactly `0, w, 2w, …` regardless of the
measured child widths, and the total grid width is `columns * w`. -/
theorem C4_colwidth_exact (wn : Nat) (es : List (Limits → Size))
    (limits : Limits) (hwn : 0 < wn) (hes : es ≠ [])
    (hfit : Int.toNat ⌊limits.maxWidth / (wn : ℚ)⌋ ≤ USIZE_MAX)
    (hcols : 0 < Int.toNat ⌊limits.maxWidth / (wn : ℚ)⌋) :
    (limits.withWidth (wn : ℚ)).minWidth = (wn : ℚ) ∧
    (limits.withWidth (wn : ℚ)).maxWidth = (wn : ℚ) ∧
    floorDivToUsize limits.maxWidth (wn : ℚ)
      = Int.toNat ⌊limits.maxWidth / (wn : ℚ)⌋ ∧
    layout ⟨Strategy.ColumnWidth wn, es⟩ limits
      = some (specCWNode (Int.toNat ⌊limits.maxWidth / (wn : ℚ)⌋) (wn : ℚ)
          (es.map fun e => e (limits.withWidth (wn : ℚ)))) ∧
    (specCWNode (Int.toNat ⌊limits.maxWidth / (wn : ℚ)⌋) (wn : ℚ)
        (es.map fun e => e (limits.withWidth (wn : ℚ)))).size.width
      = ((Int.toNat ⌊limits.maxWidth / (wn : ℚ)⌋ : Nat) : ℚ) * (wn : ℚ) := by
  have hwq : ((wn : ℚ)) ≠ 0 := by
    have : (0 : ℚ) < (wn : ℚ) := by exact_mod_cast hwn
    exact ne_of_gt this
  have hfd : floorDivToUsize limits.maxWidth (wn : ℚ)
      = Int.toNat ⌊limits.maxWidth / (wn : ℚ)⌋ := by
    rw [floorDivToUsize, if_neg hwq]
    exact Nat.min_eq_left hfit
  refine ⟨rfl, rfl, hfd, ?_, rfl⟩
  have h := layout_colwidth_eq wn es limits hes (by rw [hfd]; exact hcols)
  rw [hfd] at h
  exact h

/-- Witness for C4: width 10 inside max width 25 gives 2 columns. -/
theorem C4_colwidth_exact_witness :
    (0 < 10 ∧ esB ≠ [] ∧
      Int.toNat ⌊limB.maxWidth / ((10 : Nat) : ℚ)⌋ ≤ USIZE_MAX ∧
      0 < Int.toNat ⌊limB.maxWidth / ((10 : Nat) : ℚ)⌋) ∧
    ((limB.withWidth ((10 : Nat) : ℚ)).minWidth = ((10 : Nat) : ℚ) ∧
    (limB.withWidth ((10 : Nat) : ℚ)).maxWidth = ((10 : Nat) : ℚ) ∧
    floorDivToUsize limB.maxWidth ((10 : Nat) : ℚ)
      = Int.toNat ⌊limB.maxWidth / ((10 : Nat) : ℚ)⌋ ∧
    layout ⟨Strategy.ColumnWidth 10, esB⟩ limB
      = some (specCWNode (Int.toNat ⌊limB.maxWidth / ((10 : Nat) : ℚ)⌋)
          ((10 : Nat) : ℚ) (esB.map fun e => e (limB.withWidth ((10 : Nat) : ℚ)))) ∧
    (specCWNode (Int.toNat ⌊limB.maxWidth / ((10 : Nat) : ℚ)⌋) ((10 : Nat) : ℚ)
        (esB.map fun e => e (limB.withWidth ((10 : Nat) : ℚ)))).size.width
      = ((Int.toNat ⌊limB.maxWidth / ((10 : Nat) : ℚ)⌋ : Nat) : ℚ)
          * ((10 : Nat) : ℚ)) :=
  ⟨⟨by decide, by simp [esB], by rw [toNatFloor_limB]; decide,
      by rw [toNatFloor_limB]; decide⟩,
    C4_colwidth_exact 10 esB limB (by decide) (by simp [esB])
      (by rw [toNatFloor_limB]; decide) (by rw [toNatFloor_limB]; decide)⟩

/-- Counterexample to claim C5 as stated: `with_column_width(0)` with one
child of natural size `(5, 7)` and max available width 100 does **not**
produce a zero-size childless layout — division by the zero column width
yields `+inf`, the saturating cast makes `usize::MAX` columns, and the
child is laid out: the result has width 0 but height 7 and one child. -/
theorem C5_counterexample :
    (layout ⟨Strategy.ColumnWidth 0, esC⟩ limA).map
        (fun N => (N.size.width, N.size.height, N.children.length))
      = some (0, 7, 1) ∧
    ¬ (layout ⟨Strategy.ColumnWidth 0, esC⟩ limA
        = some (Node.new ⟨0, 0⟩)) := by
  have hfd0 : floorDivToUsize limA.maxWidth ((0 : Nat) : ℚ) = USIZE_MAX := by
    rw [floorDivToUsize, if_pos (by norm_num), if_pos (by norm_num [limA])]
  have h := layout_colwidth_eq 0 esC limA (by simp [esC])
    (by rw [hfd0]; decide)
  rw [hfd0] at h
  have hsizes : esC.map (fun e => e (limA.withWidth ((0 : Nat) : ℚ)))
      = [⟨5, 7⟩] := rfl
  rw [hsizes] at h
  have hmain : (layout ⟨Strategy.ColumnWidth 0, esC⟩ limA).map
      (fun N => (N.size.width, N.size.height, N.children.length))
      = some (0, 7, 1) := by
    rw [h]
    simp only [Option.map_some']
    have hW : (specCWNode USIZE_MAX ((0 : Nat) : ℚ)
        [⟨5, 7⟩]).size.width = 0 := by
      simp [specCWNode, Node.withChildren]
    have hH : (specCWNode USIZE_MAX ((0 : Nat) : ℚ)
        [⟨5, 7⟩]).size.height = 7 := by
      simp only [specCWNode, Node.withChildren]
      have hdiv : (([(⟨5, 7⟩ : Size)] : List Size).length + USIZE_MAX - 1)
          / USIZE_MAX = 1 := by
        simp only [List.length_singleton]
        rw [show 1 + USIZE_MAX - 1 = USIZE_MAX by omega,
          Nat.div_self (by decide : 0 < USIZE_MAX)]
      rw [hdiv, show List.range 1 = [0] from rfl]
      simp only [List.map_cons, List.map_nil, List.sum_cons, List.sum_nil,
        add_zero]
      rw [specRowHeight_zero_of_le USIZE_MAX [⟨5, 7⟩] (by decide)]
      rw [show ([(⟨5, 7⟩ : Size)].map Size.height) = [(7 : ℚ)] from rfl]
      simp only [List.foldl_cons, List.foldl_nil]
      exact max_eq_right (by norm_num)
    have hC : (specCWNode USIZE_MAX ((0 : Nat) : ℚ)
        [⟨5, 7⟩]).children.length = 1 := by
      simp [specCWNode, Node.withChildren]
    rw [hW, hH, hC]
  refine ⟨hmain, ?_⟩
  intro heq
  rw [heq] at hmain
  simp only [Node.new, Option.map_some', Option.some.injEq,
    Prod.mk.injEq] at hmain
  exact absurd hmain.2.1 (by norm_num)

/-- Amended claim C5 (theorem): no input makes `layout` fail, and the
documented degenerate cases (empty elements, `Columns 0`, zero computed
columns) do yield a zero-size childless layout; but `with_column_width 0`
with a non-empty element list and positive available width yields
`usize::MAX` columns instead: every child is laid out at position
`(0, 0)`, the grid width is 0, and the grid height is the maximum child
height (children measured against the limits narrowed to width 0). -/
theorem C5_colwidth_zero_amended (es : List (Limits → Size)) (limits : Limits)
    (hes : es ≠ []) (hmw : 0 < limits.maxWidth)
    (hk : es.length ≤ USIZE_MAX) :
    ∃ N, layout ⟨Strategy.ColumnWidth 0, es⟩ limits = some N ∧
      N.size.width = 0 ∧
      N.size.height = (es.map fun e =>
        (e (limits.withWidth ((0 : Nat) : ℚ))).height).foldl max 0 ∧
      N.children.length = es.length ∧
      ∀ i, i < es.length →
        (N.children.get? i).map (fun c => (c.x, c.y)) = some (0, 0) := by
  have hfd0 : floorDivToUsize limits.maxWidth ((0 : Nat) : ℚ) = USIZE_MAX := by
    rw [floorDivToUsize, if_pos (by norm_num), if_pos hmw]
  have h := layout_colwidth_eq 0 es limits hes (by rw [hfd0]; decide)
  rw [hfd0] at h
  set sizes := es.map fun e => e (limits.withWidth ((0 : Nat) : ℚ)) with hsz
  have hlen : sizes.length = es.length := by rw [hsz, List.length_map]
  refine ⟨specCWNode USIZE_MAX ((0 : Nat) : ℚ) sizes, h, ?_, ?_, ?_, ?_⟩
  · simp [specCWNode, Node.withChildren]
  · have hkpos : 0 < es.length := List.length_pos.mpr hes
    have hdiv : (sizes.length + USIZE_MAX - 1) / USIZE_MAX = 1 := by
      rw [hlen]
      exact ceil_div_eq_one es.length USIZE_MAX hkpos hk
    simp only [specCWNode, Node.withChildren]
    rw [hdiv, show List.range 1 = [0] from rfl]
    simp only [List.map_cons, List.map_nil, List.sum_cons, List.sum_nil,
      add_zero]
    rw [specRowHeight_zero_of_le USIZE_MAX sizes (by rw [hlen]; exact hk)]
    rw [hsz, List.map_map]
    rfl
  · simp [specCWNode, Node.withChildren, hlen]
  · intro i hi
    have hi' : i < sizes.length := by rw [hlen]; exact hi
    rw [specCWNode_children_get? USIZE_MAX ((0 : Nat) : ℚ) sizes i hi']
    simp only [Option.map_some']
    have hdiv0 : i / USIZE_MAX = 0 := Nat.div_eq_of_lt (by omega)
    rw [hdiv0]
    simp [specRowOffset]

/-- Witness for the amended C5: two children, max width 100. -/
theorem C5_colwidth_zero_amended_witness :
    (esB ≠ [] ∧ 0 < limA.maxWidth ∧ esB.length ≤ USIZE_MAX) ∧
    ∃ N, layout ⟨Strategy.ColumnWidth 0, esB⟩ limA = some N ∧
      N.size.width = 0 ∧
      N.size.height = (esB.map fun e =>
        (e (limA.withWidth ((0 : Nat) : ℚ))).height).foldl max 0 ∧
      N.children.length = esB.length ∧
      ∀ i, i < esB.length →
        (N.children.get? i).map (fun c => (c.x, c.y)) = some (0, 0) :=
  ⟨⟨by simp [esB], by norm_num [limA], by decide⟩,
    C5_colwidth_zero_amended esB limA (by simp [esB]) (by norm_num [limA])
      (by decide)⟩

/-- Claim C6: for `ColumnWidth w` with a non-empty element list, when the
available width is smaller than `w` (so the computed column count is 0),
`layout` returns a zero-size layout with no positioned children. -/
theorem C6_colwidth_no_fit (wn : Nat) (es : List (Limits → Size))
    (limits : Limits) (hes : es ≠ []) (hmw : 0 ≤ limits.maxWidth)
    (hlt : limits.maxWidth < (wn : ℚ)) :
    layout ⟨Strategy.ColumnWidth wn, es⟩ limits = some (Node.new ⟨0, 0⟩) := by
  have hwpos : (0 : ℚ) < (wn : ℚ) := lt_of_le_of_lt hmw hlt
  have hwq : ((wn : ℚ)) ≠ 0 := ne_of_gt hwpos
  have hfl : ⌊limits.maxWidth / (wn : ℚ)⌋ = 0 := by
    rw [Int.floor_eq_zero_iff]
    constructor
    · exact div_nonneg hmw (le_of_lt hwpos)
    · exact (div_lt_one hwpos).mpr hlt
  have hfd : floorDivToUsize limits.maxWidth (wn : ℚ) = 0 := by
    rw [floorDivToUsize, if_neg hwq, hfl]
    simp
  have hne : es.isEmpty = false := List.isEmpty_eq_false.mpr hes
  simp only [layout, hne, Bool.false_eq_true, if_false, hfd]
  simp [buildGrid, Node.withChildren, Node.new]

/-- Witness for C6: column width 10 with only 5 of available width. -/
theorem C6_colwidth_no_fit_witness :
    (esB ≠ [] ∧ 0 ≤ limC.maxWidth ∧ limC.maxWidth < ((10 : Nat) : ℚ)) ∧
    layout ⟨Strategy.ColumnWidth 10, esB⟩ limC = some (Node.new ⟨0, 0⟩) :=
  ⟨⟨by simp [esB], by norm_num [limC], by norm_num [limC]⟩,
    C6_colwidth_no_fit 10 esB limC (by simp [esB]) (by norm_num [limC])
      (by norm_num [limC])⟩

/-- Claim C7: for either strategy, an empty element list yields a
zero-size layout with no children; and `Columns 0` with any elements
likewise yields the zero-size childless layout (elements silently
dropped).  Both are pure equations, hence identical on repeated calls. -/
theorem C7_degenerate :
    (∀ (st : Strategy) (limits : Limits),
      layout ⟨st, []⟩ limits = some (Node.new ⟨0, 0⟩)) ∧
    (∀ (es : List (Limits → Size)) (limits : Limits),
      layout ⟨Strategy.Columns 0, es⟩ limits = some (Node.new ⟨0, 0⟩)) := by
  constructor
  · intro st limits
    rfl
  · intro es limits
    cases es with
    | nil => rfl
    | cons e es' => simp [layout]

/-- Claim C8: `on_event` forwards the event to each child paired in order
with its layout node, stopping at the shorter of the two sequences; every
paired child's status is computed from its own pair exactly once with no
short-circuiting (the status list has full length and entry `i` is
`handle eᵢ nᵢ` regardless of the other entries); the merged status is
Captured iff some paired child captured; and the merge is commutative and
associative on {Ignored, Captured}. -/
theorem C8_on_event (α : Type) (elements : List α) (children : List Node)
    (handle : α → Node → Status) :
    (childStatuses elements children handle).length
      = min elements.length children.length ∧
    (∀ i a nd, elements.get? i = some a → children.get? i = some nd →
      (childStatuses elements children handle).get? i
        = some (handle a nd)) ∧
    (on_event elements children handle = Status.Captured ↔
      ∃ i a nd, elements.get? i = some a ∧ children.get? i = some nd ∧
        handle a nd = Status.Captured) ∧
    (∀ a b, Status.merge a b = Status.merge b a) ∧
    (∀ a b c, Status.merge (Status.merge a b) c
      = Status.merge a (Status.merge b c)) := by
  have hpt : ∀ i a nd, elements.get? i = some a → children.get? i = some nd →
      (childStatuses elements children handle).get? i
        = some (handle a nd) := by
    intro i a nd ha hnd
    rw [childStatuses, List.get?_map, zip_get?_eq, ha, hnd]
    rfl
  refine ⟨?_, hpt, ?_, ?_, ?_⟩
  · rw [childStatuses, List.length_map, List.length_zip]
  · rw [on_event, foldl_merge_captured]
    constructor
    · rintro (h | h)
      · cases h
      · obtain ⟨i, hi⟩ := List.mem_iff_get?.mp h
        rw [childStatuses, List.get?_map] at hi
        cases hz : ((elements.zip children).get? i) with
        | none => rw [hz] at hi; cases hi
        | some p =>
          rw [hz] at hi
          rw [zip_get?_eq] at hz
          cases he : elements.get? i with
          | none => rw [he] at hz; cases hz
          | some a =>
            rw [he] at hz
            cases hc : children.get? i with
            | none => rw [hc] at hz; cases hz
            | some nd =>
              rw [hc] at hz
              simp only [Option.map_some', Option.some_bind] at hz
              refine ⟨i, a, nd, he, hc, ?_⟩
              simp only [Option.map_some', Option.some.injEq] at hi
              simp only [Option.some.injEq] at hz
              rw [← hz] at hi
              simpa using hi
    · rintro ⟨i, a, nd, ha, hnd, hcap⟩
      refine Or.inr (List.mem_iff_get?.mpr ⟨i, ?_⟩)
      rw [hpt i a nd ha hnd, hcap]
  · intro a b
    cases a <;> cases b <;> rfl
  · intro a b c
    cases a <;> cases b <;> cases c <;> rfl

/-- Witness for C8: the spec's scenario — three children where the middle
one captures; the merged status is Captured and every child's status is
still computed from its own pair. -/
theorem C8_on_event_witness :
    (childStatuses [0, 1, 2]
        [Node.new ⟨0, 0⟩, Node.new ⟨0, 0⟩, Node.new ⟨0, 0⟩]
        (fun i _ => if i = 1 then Status.Captured else Status.Ignored)).length
      = min ([0, 1, 2] : List Nat).length
          [Node.new ⟨0, 0⟩, Node.new ⟨0, 0⟩, Node.new ⟨0, 0⟩].length ∧
    (∀ i a nd, ([0, 1, 2] : List Nat).get? i = some a →
      [Node.new ⟨0, 0⟩, Node.new ⟨0, 0⟩, Node.new ⟨0, 0⟩].get? i = some nd →
      (childStatuses [0, 1, 2]
          [Node.new ⟨0, 0⟩, Node.new ⟨0, 0⟩, Node.new ⟨0, 0⟩]
          (fun i _ => if i = 1 then Status.Captured
            else Status.Ignored)).get? i
        = some (if a = 1 then Status.Captured else Status.Ignored)) ∧
    (on_event [0, 1, 2] [Node.new ⟨0, 0⟩, Node.new ⟨0, 0⟩, Node.new ⟨0, 0⟩]
        (fun i _ => if i = 1 then Status.Captured else Status.Ignored)
      = Status.Captured ↔
      ∃ i a nd, ([0, 1, 2] : List Nat).get? i = some a ∧
        [Node.new ⟨0, 0⟩, Node.new ⟨0, 0⟩, Node.new ⟨0, 0⟩].get? i
          = some nd ∧
        (if a = 1 then Status.Captured else Status.Ignored)
          = Status.Captured) ∧
    (∀ a b, Status.merge a b = Status.merge b a) ∧
    (∀ a b c, Status.merge (Status.merge a b) c
      = Status.merge a (Status.merge b c)) :=
  C8_on_event Nat [0, 1, 2]
    [Node.new ⟨0, 0⟩, Node.new ⟨0, 0⟩, Node.new ⟨0, 0⟩]
    (fun i _ => if i = 1 then Status.Captured else Status.Ignored)

/-- Claim C9: `hash_layout` contributes exactly the fixed type marker
followed by each child's own identity hash in element order — nothing
else — so, for a fixed incoming state, the result changes exactly when
the concatenated child contributions change, and is otherwise stable. -/
theorem C9_hash_layout (childHashes childHashes' : List (List HashTok))
    (state : List HashTok) :
    hash_layout childHashes state
      = state ++ HashTok.marker :: childHashes.join ∧
    (hash_layout childHashes state = hash_layout childHashes' state ↔
      childHashes.join = childHashes'.join) := by
  have key : ∀ l : List (List HashTok),
      hash_layout l state = state ++ HashTok.marker :: l.join := by
    intro l
    rw [hash_layout, foldl_append_eq_join]
    simp
  refine ⟨key childHashes, ?_⟩
  rw [key childHashes, key childHashes']
  constructor
  · intro h
    have h2 := List.append_cancel_left h
    simpa using h2
  · intro h
    rw [h]

/-- Claim C10: in the `Columns n` layout pass with `n > 0`, the
column-width table update never indexes out of bounds: fresh column
indices are touched in increasing order, so whenever `Vec::insert` runs
its index equals the table length and the pass cannot panic — the table
for any prefix of the elements exists and has length `min (#processed) n`. -/
theorem C10_no_panic (n : Nat) (sizes : List Size) (hn : 0 < n) :
    (∃ cw, computeColumnWidths n sizes = some cw ∧
      cw.length = min sizes.length n) ∧
    ∀ j, ∃ cwj, computeColumnWidths n (sizes.take j) = some cwj ∧
      cwj.length = min (min j sizes.length) n := by
  constructor
  · obtain ⟨cw, h1, h2⟩ := colWidthsAux_isSome_len n hn sizes [] 0 (by simp)
    exact ⟨cw, h1, by simpa using h2⟩
  · intro j
    obtain ⟨cw, h1, h2⟩ := colWidthsAux_isSome_len n hn (sizes.take j) [] 0
      (by simp)
    refine ⟨cw, h1, ?_⟩
    rw [h2]
    simp [List.length_take]

/-- Witness for C10: three sizes in two columns. -/
theorem C10_no_panic_witness :
    0 < 2 ∧
    ((∃ cw, computeColumnWidths 2 [⟨1, 1⟩, ⟨2, 2⟩, ⟨3, 3⟩] = some cw ∧
      cw.length = min ([⟨1, 1⟩, ⟨2, 2⟩, ⟨3, 3⟩] : List Size).length 2) ∧
    ∀ j, ∃ cwj, computeColumnWidths 2
        (([⟨1, 1⟩, ⟨2, 2⟩, ⟨3, 3⟩] : List Size).take j) = some cwj ∧
      cwj.length = min (min j ([⟨1, 1⟩, ⟨2, 2⟩, ⟨3, 3⟩] : List Size).length) 2) :=
  ⟨by decide, C10_no_panic 2 [⟨1, 1⟩, ⟨2, 2⟩, ⟨3, 3⟩] (by decide)⟩

end IcedAW
